import Mathlib

set_option maxRecDepth 100000

/-!
Verification development for an S-box cryptographic-analysis tool.

The repository's entry point (`src/sbox/main.py`) ingests a spreadsheet/CSV
table, flattens it, pads or truncates it to 256 entries, stores it, displays
it as a 16x16 grid, runs a caller-selected subset of six metric analyses on
it, and offers an export of the stored table.  The six metric functions
themselves live in `utils/*` modules that are not part of the sources given
here; they are modelled from the specification (sections 4.2-4.5 and 7 of
the design document), each such definition carrying a doc comment starting
with `Modelled from the spec:`.  Everything else is translated directly from
`main.py`.
-/

namespace Sbox

/-! ## Bit-algebra primitives (spec section 4.1) -/

/-- Modelled from the spec: `popcount(x)`, the number of set bits of `x`
(missing `utils` bit-algebra helper). -/
def popcount (n : ℕ) : ℕ :=
  if h : n = 0 then 0 else n % 2 + popcount (n / 2)
decreasing_by exact Nat.div_lt_self (Nat.pos_of_ne_zero h) (by norm_num)

/-- Modelled from the spec: `bitDot(a, b)`, the GF(2) inner product, i.e. the
parity of `popcount(a AND b)`, rendered as a `Bool` (missing `utils`
bit-algebra helper). -/
def bitDot (a b : ℕ) : Bool :=
  decide (popcount (a &&& b) % 2 = 1)

/-- Modelled from the spec: `getBit(x, i)`, bit `i` of `x` (0-indexed)
(missing `utils` bit-algebra helper). -/
def getBit (x i : ℕ) : Bool :=
  Nat.testBit x i

/-- Table lookup: the engine borrows the caller's flat table and indexes it
by the input value; out-of-range indexes (never reached for well-formed
tables) default to 0. -/
def sboxFun (t : List ℕ) (x : ℕ) : ℕ :=
  t.getD x 0

/-! ## Walsh/Correlation module (spec section 4.2) -/

/-- One Walsh summand: agreement between the output linear form `bitDot b (S x)`
and the input linear form `bitDot a x` counts `+1`, disagreement `-1`. -/
def walshTerm (t : List ℕ) (a b x : ℕ) : ℤ :=
  if bitDot b (sboxFun t x) = bitDot a x then 1 else -1

/-- Modelled from the spec: the Walsh spectrum value
`W(a,b) = sum over x < 2^n of (-1)^(bitDot(b,S(x)) XOR bitDot(a,x))`
(missing `utils/linear_approximation.py` / `utils/nonlinearity.py` core). -/
def walsh (n : ℕ) (t : List ℕ) (a b : ℕ) : ℤ :=
  ∑ x ∈ Finset.range (2 ^ n), walshTerm t a b x

/-- The maximal absolute Walsh value over all input masks `a` in `[0, 2^n)`
and all nonzero output masks `b` in `[1, 2^n)`; shared by LAP and NL. -/
def maxAbsWalsh (n : ℕ) (t : List ℕ) : ℕ :=
  (Finset.range (2 ^ n) ×ˢ Finset.Ico 1 (2 ^ n)).sup
    fun p => (walsh n t p.1 p.2).natAbs

/-- Modelled from the spec: `LAP = max |W(a,b)| / N` over `a` in `[0,N-1]`,
`b` in `[1,N-1]` (missing `utils/linear_approximation.py`). -/
def lapValue (n : ℕ) (t : List ℕ) : ℚ :=
  (maxAbsWalsh n t : ℚ) / (2 ^ n : ℚ)

/-- Modelled from the spec: `NL = 2^(n-1) - (1/2) * max |W(a,b)|`, an integer
in practice since Walsh values share parity with `N`
(missing `utils/nonlinearity.py`). -/
def nlValue (n : ℕ) (t : List ℕ) : ℤ :=
  (2 ^ (n - 1) : ℤ) - (maxAbsWalsh n t / 2 : ℕ)

/-! ## Difference-Distribution module (spec section 4.3) -/

/-- Modelled from the spec: `DDT[dx][dy]`, the count of `x` in `[0, 2^n)` with
`S(x) XOR S(x XOR dx) = dy` (missing `utils/differential_approximation.py`). -/
def ddtCount (n : ℕ) (t : List ℕ) (dx dy : ℕ) : ℕ :=
  ((Finset.range (2 ^ n)).filter
    fun x => sboxFun t x ^^^ sboxFun t (x ^^^ dx) = dy).card

/-- The maximal DDT cell over nonzero input differences `dx` in `[1, 2^n)` and
all output differences `dy` in `[0, 2^n)`. -/
def maxDdt (n : ℕ) (t : List ℕ) : ℕ :=
  (Finset.Ico 1 (2 ^ n) ×ˢ Finset.range (2 ^ n)).sup
    fun p => ddtCount n t p.1 p.2

/-- Modelled from the spec: `DAP = max DDT[dx][dy] / N`
(missing `utils/differential_approximation.py`). -/
def dapValue (n : ℕ) (t : List ℕ) : ℚ :=
  (maxDdt n t : ℚ) / (2 ^ n : ℚ)

/-! ## Avalanche module (spec section 4.4) -/

/-- Modelled from the spec: the count over all inputs `x` of
`getBit(S(x), j) != getBit(S(x XOR 2^i), j)`
(missing `utils/avalanche_criterion.py`). -/
def flipCount (n : ℕ) (t : List ℕ) (i j : ℕ) : ℕ :=
  ((Finset.range (2 ^ n)).filter
    fun x => getBit (sboxFun t x) j ≠ getBit (sboxFun t (x ^^^ 2 ^ i)) j).card

/-- Modelled from the spec: `flipRate[i][j] = flip count / N`
(missing `utils/avalanche_criterion.py`). -/
def flipRate (n : ℕ) (t : List ℕ) (i j : ℕ) : ℚ :=
  (flipCount n t i j : ℚ) / (2 ^ n : ℚ)

/-- Modelled from the spec: SAC as the overall average of `flipRate[i][j]`
over all `n * n` bit pairs (missing `utils/avalanche_criterion.py`). -/
def sacValue (n : ℕ) (t : List ℕ) : ℚ :=
  (∑ i ∈ Finset.range n, ∑ j ∈ Finset.range n, flipRate n t i j)
    / ((n : ℚ) * (n : ℚ))

/-! ## Bit-Independence module (spec section 4.5) -/

/-- The change indicator `Delta_j(x, i) = getBit(S(x),j) XOR getBit(S(x XOR 2^i),j)`. -/
def bitChange (t : List ℕ) (i j x : ℕ) : Bool :=
  xor (getBit (sboxFun t x) j) (getBit (sboxFun t (x ^^^ 2 ^ i)) j)

/-- Modelled from the spec: the signed correlation between the change
indicators of output bits `j` and `k` under flips of input bit `i`:
`corr(i,j,k) = (agreement fraction) * 2 - 1`
(missing `utils/bit_independence.py`). -/
def bicCorr (n : ℕ) (t : List ℕ) (i j k : ℕ) : ℚ :=
  (((Finset.range (2 ^ n)).filter
      fun x => bitChange t i j x = bitChange t i k x).card : ℚ)
    / (2 ^ n : ℚ) * 2 - 1

/-- The unordered output-bit pairs `(j, k)`, `j < k`, as a `Finset`. -/
def bitPairs (n : ℕ) : Finset (ℕ × ℕ) :=
  (Finset.range n ×ˢ Finset.range n).filter fun p => p.1 < p.2

/-- Modelled from the spec: BIC-SAC as the mean of `|corr(i,j,k)|` over all
input bits `i` and all unordered output-bit pairs `(j,k)`
(missing `utils/bit_independence.py`). -/
def bicSacValue (n : ℕ) (t : List ℕ) : ℚ :=
  (∑ i ∈ Finset.range n, ∑ p ∈ bitPairs n, |bicCorr n t i p.1 p.2|)
    / ((n : ℚ) * ((bitPairs n).card : ℚ))

/-- One Walsh summand for a single Boolean function `f` in place of the masked
output combination. -/
def boolWalshTerm (f : ℕ → Bool) (a x : ℕ) : ℤ :=
  if f x = bitDot a x then 1 else -1

/-- Modelled from the spec: the Walsh value of a single-output Boolean
function at input mask `a` (missing `utils/bit_independence.py`). -/
def boolWalsh (n : ℕ) (f : ℕ → Bool) (a : ℕ) : ℤ :=
  ∑ x ∈ Finset.range (2 ^ n), boolWalshTerm f a x

/-- Modelled from the spec: the nonlinearity of the combined Boolean function
`f_{j,k}(x) = getBit(S(x),j) XOR getBit(S(x),k)`
(missing `utils/bit_independence.py`). -/
def pairNl (n : ℕ) (t : List ℕ) (j k : ℕ) : ℕ :=
  2 ^ (n - 1) -
    ((Finset.range (2 ^ n)).sup
      fun a => (boolWalsh n (fun x => xor (getBit (sboxFun t x) j)
        (getBit (sboxFun t x) k)) a).natAbs) / 2

/-- Modelled from the spec: BIC-NL as the minimum pair nonlinearity over all
unordered output-bit pairs, folded from the trivial upper bound `2^(n-1)`
(missing `utils/bit_independence.py`). -/
def bicNlValue (n : ℕ) (t : List ℕ) : ℕ :=
  (bitPairs n).fold min (2 ^ (n - 1)) fun p => pairNl n t p.1 p.2

/-! ## Engine entry: validation and error taxonomy (spec section 7)

`main.py` calls the six metric functions directly; the validation they
perform at entry is part of the missing `utils` modules and is modelled from
spec sections 6 and 7. -/

/-- The error taxonomy of spec section 7. -/
inductive SboxError where
  | invalidTableLength : SboxError
  | valueOutOfRange : SboxError
deriving DecidableEq, Repr

/-- Decides whether a length is a power of two. -/
def isPow2 (n : ℕ) : Bool :=
  if n = 0 then false
  else if n = 1 then true
  else if n % 2 = 1 then false
  else isPow2 (n / 2)
decreasing_by exact Nat.div_lt_self (Nat.pos_of_ne_zero (by omega)) (by norm_num)

/-- Modelled from the spec: a table length is supported when it is a power of
two and at least 2 (`N` is a constant `≥ 2`, `N = 2^n`)
(missing `utils` validation). -/
def supportedLength (len : ℕ) : Bool :=
  isPow2 len && decide (2 ≤ len)

/-- Modelled from the spec: every entry must lie in `[0, N-1]` where `N` is
the table length (missing `utils` validation). -/
def allInRange (t : List ℤ) : Bool :=
  t.all fun v => decide (0 ≤ v ∧ v < (t.length : ℤ))

/-- Modelled from the spec: validation performed once at entry to any
analysis — length check first, then the value-range check
(missing `utils` validation). -/
def validateTable (t : List ℤ) : Except SboxError Unit :=
  if supportedLength t.length then
    if allInRange t then Except.ok () else Except.error SboxError.valueOutOfRange
  else Except.error SboxError.invalidTableLength

/-- The six analyses offered by the tool, in the order `main.py` lists them. -/
inductive Metric where
  | lap : Metric
  | nl : Metric
  | sac : Metric
  | dap : Metric
  | bicSac : Metric
  | bicNl : Metric
deriving DecidableEq, Repr

/-- The caller-facing table is a list of machine integers; the engine works on
the non-negative values. -/
def toNatTable (t : List ℤ) : List ℕ :=
  t.map Int.toNat

/-- The scalar a metric analysis computes from a table of `2^n` entries, as an
exact rational (the spec keeps all sums and counts exact and divides only at
the end). -/
def metricRat (m : Metric) (n : ℕ) (t : List ℕ) : ℚ :=
  match m with
  | Metric.lap => lapValue n t
  | Metric.nl => (nlValue n t : ℚ)
  | Metric.sac => sacValue n t
  | Metric.dap => dapValue n t
  | Metric.bicSac => bicSacValue n t
  | Metric.bicNl => (bicNlValue n t : ℚ)

/-- Modelled from the spec: a single analysis call — validate once at entry,
then compute; a structured error is returned instead of a crash
(missing `utils` modules, spec section 7). -/
def analyze (m : Metric) (t : List ℤ) : Except SboxError ℚ :=
  match validateTable t with
  | Except.error e => Except.error e
  | Except.ok _ => Except.ok (metricRat m (Nat.log2 t.length) (toNatTable t))

/-! ## Ingestion layer (`main.py` lines 44-76)

The uploaded spreadsheet arrives as a dataframe (a list of rows); `main.py`
flattens it to one list of integers, pads short tables with zeros, truncates
long ones to the first 256 entries and stores the result in the session
state. -/

/-- Pad-or-truncate to 256 entries, from `main.py` lines 59-64:
`sbox.extend([0] * (256 - len(sbox)))` for short tables,
`sbox = sbox[:256]` for long ones. -/
def adjustSbox (s : List ℤ) : List ℤ :=
  if s.length < 256 then s ++ List.replicate (256 - s.length) 0
  else if s.length > 256 then s.take 256
  else s

/-- Full ingestion of a parsed dataframe, from `main.py` lines 56-67:
flatten row-major (`df.values.flatten()`), then adjust the size.  The result
is what is stored in `st.session_state.sbox`. -/
def ingestTable (df : List (List ℤ)) : List ℤ :=
  adjustSbox df.flatten

/-- The 16x16 display grid, from `main.py` line 72:
`np.array(sbox).reshape(16, 16)` is a row-major reshape. -/
def sboxGrid (s : List ℤ) : List (List ℤ) :=
  (List.range 16).map fun i => (s.drop (16 * i)).take 16

/-- The exported spreadsheet, from `main.py` lines 112-114:
`pd.DataFrame(sbox)` written without index or header is one row per stored
value, in stored order. -/
def exportCells (s : List ℤ) : List (List ℤ) :=
  s.map fun v => [v]

/-! ## Orchestration and formatting (`main.py` lines 82-109) -/

/-- A value as rendered by `st.metric`: either a float formatted to a fixed
number of decimal places, or an exact integer rendered with `str`. -/
inductive DisplayValue where
  | floatStr (decimals : ℕ) (value : ℚ) : DisplayValue
  | intStr (value : ℤ) : DisplayValue
deriving DecidableEq, Repr

/-- The rendered result of one analysis on the stored table, from `main.py`
lines 82-109: LAP with `:.6f`, SAC/DAP/BIC-SAC with `:.10f`, Nonlinearity and
BIC-NL with `str(...)`.  The stored table always has 256 entries, so the
metrics run at `n = 8`. -/
def displayMetric (m : Metric) (t : List ℤ) : DisplayValue :=
  match m with
  | Metric.lap => DisplayValue.floatStr 6 (lapValue 8 (toNatTable t))
  | Metric.nl => DisplayValue.intStr (nlValue 8 (toNatTable t))
  | Metric.sac => DisplayValue.floatStr 10 (sacValue 8 (toNatTable t))
  | Metric.dap => DisplayValue.floatStr 10 (dapValue 8 (toNatTable t))
  | Metric.bicSac => DisplayValue.floatStr 10 (bicSacValue 8 (toNatTable t))
  | Metric.bicNl => DisplayValue.intStr (bicNlValue 8 (toNatTable t))

/-- The fixed order in which `main.py` checks the multiselect options. -/
def allMetrics : List Metric :=
  [Metric.lap, Metric.nl, Metric.sac, Metric.dap, Metric.bicSac, Metric.bicNl]

/-- The reported analyses, from `main.py` lines 82-109: each of the six
metrics, in the fixed source order, is computed and shown exactly when it is
in the caller's selection, each from the stored table alone. -/
def runSelected (sel : List Metric) (t : List ℤ) : List (Metric × DisplayValue) :=
  allMetrics.filterMap fun m =>
    if m ∈ sel then some (m, displayMetric m t) else none

/-- Modelled from the spec: one engine call threaded through the caller's
state — the engine borrows the table read-only and returns it unchanged
(spec sections 2 and 5; missing `utils` modules). -/
def analyzeSt (m : Metric) (t : List ℤ) : Except SboxError ℚ × List ℤ :=
  (analyze m t, t)

/-- Two successive calls of the same analysis, the second on whatever table
the first call left behind. -/
def runTwice (m : Metric) (t : List ℤ) :
    (Except SboxError ℚ × Except SboxError ℚ) × List ℤ :=
  let r1 := analyzeSt m t
  let r2 := analyzeSt m r1.2
  ((r1.1, r2.1), r2.2)

/-- Modelled from the spec: a whole analysis run threaded through the
caller's state — malformed input is detected once at entry, before any
metric computation, and reported as a structured failure with the state left
unchanged (spec section 7; missing `utils` modules). -/
def runAnalysesSt (sel : List Metric) (t : List ℤ) :
    Except SboxError (List (Metric × ℚ)) × List ℤ :=
  match validateTable t with
  | Except.error e => (Except.error e, t)
  | Except.ok _ =>
      (Except.ok (sel.map fun m => (m, metricRat m (Nat.log2 t.length) (toNatTable t))), t)

/-- The 256-entry identity table `S(x) = x` of spec section 8. -/
def identityTable : List ℕ :=
  List.range 256

/-! ## Helper lemmas -/

lemma adjustSbox_length (s : List ℤ) : (adjustSbox s).length = 256 := by
  unfold adjustSbox
  split
  · simp; omega
  · split
    · simp; omega
    · omega

lemma adjustSbox_of_lt (s : List ℤ) (h : s.length < 256) :
    adjustSbox s = s ++ List.replicate (256 - s.length) 0 := by
  unfold adjustSbox
  simp [h]

lemma adjustSbox_of_ge (s : List ℤ) (h : 256 ≤ s.length) :
    adjustSbox s = s.take 256 := by
  unfold adjustSbox
  rcases Nat.lt_or_ge 256 s.length with h' | h'
  · simp [Nat.not_lt.mpr h, h']
  · have hlen : s.length = 256 := le_antisymm h' h
    simp [hlen]

lemma flatten_grid_chunks (s : List ℤ) (k : ℕ) :
    ((List.range k).map fun i => (s.drop (16 * i)).take 16).flatten = s.take (16 * k) := by
  induction k with
  | zero => simp
  | succ k ih =>
      rw [List.range_succ, List.map_append, List.flatten_append]
      simp only [List.map_cons, List.map_nil, List.flatten_cons, List.flatten_nil,
        List.append_nil]
      rw [ih, Nat.mul_succ, List.take_add]

lemma exportCells_flatten (s : List ℤ) : (exportCells s).flatten = s := by
  unfold exportCells
  induction s with
  | nil => simp
  | cons a s ih => simp [ih]

/-! ## Claims -/

/-- C2: the ingestion layer adjusts every parsed table to exactly 256
entries: short tables are extended (the original entries stay as a prefix),
long tables are truncated to their first 256 entries. -/
theorem ingestion_adjusts_to_256 (s : List ℤ) :
    (adjustSbox s).length = 256
    ∧ (s.length ≤ 256 → ∃ fill, adjustSbox s = s ++ fill)
    ∧ (256 ≤ s.length → adjustSbox s = s.take 256) := by
  refine ⟨adjustSbox_length s, fun h => ?_, fun h => adjustSbox_of_ge s h⟩
  rcases Nat.lt_or_ge s.length 256 with h' | h'
  · exact ⟨List.replicate (256 - s.length) 0, adjustSbox_of_lt s h'⟩
  · refine ⟨[], ?_⟩
    rw [adjustSbox_of_ge s h', List.append_nil,
      List.take_of_length_le (le_antisymm h h' ▸ le_refl _)]

/-- Witness for C2 at a concrete 256-entry table, where both the short-table
and the long-table hypotheses hold. -/
theorem ingestion_adjusts_to_256_witness :
    (adjustSbox (List.replicate 256 (0 : ℤ))).length = 256
    ∧ (∃ fill, adjustSbox (List.replicate 256 (0 : ℤ)) = List.replicate 256 (0 : ℤ) ++ fill)
    ∧ adjustSbox (List.replicate 256 (0 : ℤ)) = (List.replicate 256 (0 : ℤ)).take 256 :=
  ⟨(ingestion_adjusts_to_256 (List.replicate 256 0)).1,
   (ingestion_adjusts_to_256 (List.replicate 256 0)).2.1 (by rw [List.length_replicate]),
   (ingestion_adjusts_to_256 (List.replicate 256 0)).2.2 (by rw [List.length_replicate])⟩

/-- C6: whatever dataframe is uploaded, the stored S-box — the list placed in
session state and handed to the analyses, the display grid and the export —
has exactly 256 entries. -/
theorem stored_sbox_length (df : List (List ℤ)) :
    (ingestTable df).length = 256 := by
  unfold ingestTable
  exact adjustSbox_length _

/-- C9: the padding fill value is 0 — a short table is stored as its original
entries in order followed by `256 - length` zeros. -/
theorem padding_fill_is_zero (s : List ℤ) (h : s.length < 256) :
    adjustSbox s = s ++ List.replicate (256 - s.length) 0 :=
  adjustSbox_of_lt s h

/-- Witness for C9 at the concrete three-entry table `[1, 2, 3]`. -/
theorem padding_fill_is_zero_witness :
    adjustSbox [1, 2, 3] = [1, 2, 3] ++ List.replicate 253 (0 : ℤ) := by
  have h := padding_fill_is_zero [1, 2, 3]
    (by simp only [List.length_cons, List.length_nil]; omega)
  simp only [List.length_cons, List.length_nil] at h
  exact h

/-- C10: for a stored 256-entry table, the 16x16 display grid holds exactly
the stored values in row-major order (flattening it recovers the table), and
the exported sheet holds exactly the stored values in stored order. -/
theorem grid_and_export_preserve_table (s : List ℤ) (h : s.length = 256) :
    (sboxGrid s).flatten = s
    ∧ (∀ row ∈ sboxGrid s, row.length = 16)
    ∧ (exportCells s).flatten = s := by
  refine ⟨?_, ?_, exportCells_flatten s⟩
  · unfold sboxGrid
    rw [flatten_grid_chunks]
    rw [show 16 * 16 = 256 from rfl, ← h, List.take_length]
  · intro row hrow
    unfold sboxGrid at hrow
    rw [List.mem_map] at hrow
    obtain ⟨i, hi, hrow⟩ := hrow
    rw [List.mem_range] at hi
    rw [← hrow]
    simp [List.length_take, List.length_drop, h]
    omega

/-- Witness for C10 at a concrete 256-entry table. -/
theorem grid_and_export_preserve_table_witness :
    (sboxGrid (List.replicate 256 (7 : ℤ))).flatten = List.replicate 256 (7 : ℤ)
    ∧ (∀ row ∈ sboxGrid (List.replicate 256 (7 : ℤ)), row.length = 16)
    ∧ (exportCells (List.replicate 256 (7 : ℤ))).flatten = List.replicate 256 (7 : ℤ) :=
  grid_and_export_preserve_table (List.replicate 256 7) (by rw [List.length_replicate])

lemma mem_allMetrics (m : Metric) : m ∈ allMetrics := by
  cases m <;> simp [allMetrics]

lemma mem_runSelected {sel : List Metric} {t : List ℤ} {m : Metric} {v : DisplayValue} :
    (m, v) ∈ runSelected sel t ↔ m ∈ sel ∧ v = displayMetric m t := by
  unfold runSelected
  rw [List.mem_filterMap]
  constructor
  · rintro ⟨a, _, hfa⟩
    by_cases h : a ∈ sel
    · rw [if_pos h] at hfa
      obtain ⟨h1, h2⟩ := Prod.mk.injEq .. ▸ Option.some.inj hfa
      subst h1
      exact ⟨h, h2.symm⟩
    · rw [if_neg h] at hfa
      exact absurd hfa (Option.some_ne_none _).symm
  · rintro ⟨hm, hv⟩
    exact ⟨m, mem_allMetrics m, by rw [if_pos hm, hv]⟩

/-- C4: exactly the caller-selected analyses are reported — a metric appears
in the report if and only if it was selected — and every reported value is a
function of the stored table alone (independent of the selection and of any
other analysis's output). -/
theorem selected_analyses_only (sel : List Metric) (t : List ℤ) (m : Metric) :
    ((∃ v, (m, v) ∈ runSelected sel t) ↔ m ∈ sel)
    ∧ ∀ v, (m, v) ∈ runSelected sel t → v = displayMetric m t := by
  constructor
  · constructor
    · rintro ⟨v, hv⟩
      exact (mem_runSelected.mp hv).1
    · intro hm
      exact ⟨displayMetric m t, mem_runSelected.mpr ⟨hm, rfl⟩⟩
  · intro v hv
    exact (mem_runSelected.mp hv).2

/-- Witness for C4 at a concrete selection and table. -/
theorem selected_analyses_only_witness :
    ((∃ v, (Metric.lap, v) ∈ runSelected [Metric.lap] []) ↔ Metric.lap ∈ [Metric.lap])
    ∧ displayMetric Metric.lap [] = displayMetric Metric.lap [] :=
  ⟨(selected_analyses_only [Metric.lap] [] Metric.lap).1,
   (selected_analyses_only [Metric.lap] [] Metric.lap).2 (displayMetric Metric.lap [])
     (mem_runSelected.mpr ⟨by simp, rfl⟩)⟩

/-- C5: every reported result uses the source's display format — LAP as a
float with 6 decimal places, SAC, DAP and BIC-SAC as floats with 10 decimal
places, Nonlinearity and BIC-NL as exact integers. -/
theorem display_precisions (sel : List Metric) (t : List ℤ) :
    ∀ p ∈ runSelected sel t,
      (p.1 = Metric.lap → ∃ q, p.2 = DisplayValue.floatStr 6 q)
      ∧ (p.1 = Metric.sac → ∃ q, p.2 = DisplayValue.floatStr 10 q)
      ∧ (p.1 = Metric.dap → ∃ q, p.2 = DisplayValue.floatStr 10 q)
      ∧ (p.1 = Metric.bicSac → ∃ q, p.2 = DisplayValue.floatStr 10 q)
      ∧ (p.1 = Metric.nl → ∃ z, p.2 = DisplayValue.intStr z)
      ∧ (p.1 = Metric.bicNl → ∃ z, p.2 = DisplayValue.intStr z) := by
  rintro ⟨m, v⟩ hp
  have hv : v = displayMetric m t := (mem_runSelected.mp hp).2
  subst hv
  refine ⟨fun h => ?_, fun h => ?_, fun h => ?_, fun h => ?_, fun h => ?_, fun h => ?_⟩ <;>
    (simp only at h; subst h; exact ⟨_, rfl⟩)

/-- Witness for C5 at a concrete reported pair. -/
theorem display_precisions_witness :
    ∃ q, (Metric.lap, displayMetric Metric.lap []).2 = DisplayValue.floatStr 6 q :=
  (display_precisions [Metric.lap] [] (Metric.lap, displayMetric Metric.lap [])
    (mem_runSelected.mpr ⟨by simp, rfl⟩)).1 rfl

/-- C7: running any analysis twice on the same unmodified table gives
identical results, and the table the caller holds afterwards is unchanged —
the engine keeps no hidden mutable state. -/
theorem analysis_idempotent (m : Metric) (t : List ℤ) :
    (runTwice m t).1.1 = (runTwice m t).1.2 ∧ (runTwice m t).2 = t := by
  unfold runTwice analyzeSt
  exact ⟨rfl, rfl⟩

/-- C3: malformed input is detected once at entry and reported as a
structured failure; the caller's state is never modified, and on a
validation error no analysis result is produced at all. -/
theorem validation_precedes_computation (sel : List Metric) (t : List ℤ) :
    (runAnalysesSt sel t).2 = t
    ∧ ∀ e, validateTable t = Except.error e →
        runAnalysesSt sel t = (Except.error e, t) := by
  unfold runAnalysesSt
  constructor
  · cases validateTable t <;> rfl
  · intro e he
    rw [he]

/-- Witness for C3 at a concrete malformed table (length 1 is not a
supported power of two). -/
theorem validation_precedes_computation_witness :
    (runAnalysesSt [Metric.lap] [3]).2 = [3]
    ∧ runAnalysesSt [Metric.lap] [3] = (Except.error SboxError.invalidTableLength, [3]) :=
  ⟨(validation_precedes_computation [Metric.lap] [3]).1,
   (validation_precedes_computation [Metric.lap] [3]).2 SboxError.invalidTableLength
     (by simp [validateTable, supportedLength, isPow2])⟩

lemma isPow2_iff (n : ℕ) : isPow2 n = true ↔ ∃ k, n = 2 ^ k := by
  induction n using Nat.strong_induction_on with
  | _ n ih =>
    rw [isPow2]
    by_cases h0 : n = 0
    · subst h0
      simp only [if_pos rfl]
      constructor
      · intro h
        exact absurd h (by simp)
      · rintro ⟨k, hk⟩
        have h2 : 0 < 2 ^ k := Nat.pos_pow_of_pos k (by norm_num)
        omega
    · rw [if_neg h0]
      by_cases h1 : n = 1
      · subst h1
        simp only [if_pos rfl]
        exact ⟨fun _ => ⟨0, rfl⟩, fun _ => rfl⟩
      · rw [if_neg h1]
        by_cases hodd : n % 2 = 1
        · rw [if_pos hodd]
          constructor
          · intro h
            exact absurd h (by simp)
          · rintro ⟨k, hk⟩
            have hk1 : 1 ≤ k := by
              rcases Nat.eq_zero_or_pos k with h | h
              · subst h; simp at hk; omega
              · exact h
            have : n % 2 = 0 := by
              rw [hk]
              have : 2 ^ k = 2 * 2 ^ (k - 1) := by
                rw [← pow_succ']
                congr 1
                omega
              rw [this]
              omega
            omega
        · rw [if_neg hodd]
          have heven : n % 2 = 0 := by omega
          have hrec := ih (n / 2) (Nat.div_lt_self (Nat.pos_of_ne_zero h0) (by norm_num))
          rw [hrec]
          constructor
          · rintro ⟨k, hk⟩
            refine ⟨k + 1, ?_⟩
            rw [pow_succ', ← hk]
            omega
          · rintro ⟨k, hk⟩
            have hk1 : 1 ≤ k := by
              rcases Nat.eq_zero_or_pos k with h | h
              · subst h; simp at hk; omega
              · exact h
            refine ⟨k - 1, ?_⟩
            have : n = 2 * 2 ^ (k - 1) := by
              rw [hk, ← pow_succ']
              congr 1
              omega
            omega

lemma supportedLength_iff (len : ℕ) :
    supportedLength len = true ↔ ∃ k, 1 ≤ k ∧ len = 2 ^ k := by
  unfold supportedLength
  rw [Bool.and_eq_true, isPow2_iff, decide_eq_true_eq]
  constructor
  · rintro ⟨⟨k, hk⟩, hle⟩
    refine ⟨k, ?_, hk⟩
    by_contra hk0
    have : k = 0 := by omega
    subst this
    simp at hk
    omega
  · rintro ⟨k, hk1, hk⟩
    refine ⟨⟨k, hk⟩, ?_⟩
    rw [hk]
    calc 2 = 2 ^ 1 := by norm_num
    _ ≤ 2 ^ k := Nat.pow_le_pow_right (by norm_num) hk1

lemma allInRange_iff (t : List ℤ) :
    allInRange t = true ↔ ∀ v ∈ t, 0 ≤ v ∧ v < (t.length : ℤ) := by
  unfold allInRange
  rw [List.all_eq_true]
  constructor
  · intro h v hv
    exact of_decide_eq_true (h v hv)
  · intro h v hv
    exact decide_eq_true (h v hv)

/-- C1: an analysis fails with `InvalidTableLength` exactly when the table
length is not a supported power of two, fails with `ValueOutOfRange` exactly
when the length is supported but some entry is negative or at least `N`
(the table length), and succeeds exactly when the length is supported and
every entry lies in `[0, N-1]`. -/
theorem validation_error_taxonomy (m : Metric) (t : List ℤ) :
    (analyze m t = Except.error SboxError.invalidTableLength ↔
      ¬ ∃ k, 1 ≤ k ∧ t.length = 2 ^ k)
    ∧ (analyze m t = Except.error SboxError.valueOutOfRange ↔
      (∃ k, 1 ≤ k ∧ t.length = 2 ^ k) ∧ ∃ v ∈ t, ¬(0 ≤ v ∧ v < (t.length : ℤ)))
    ∧ ((∃ q, analyze m t = Except.ok q) ↔
      (∃ k, 1 ≤ k ∧ t.length = 2 ^ k) ∧ ∀ v ∈ t, 0 ≤ v ∧ v < (t.length : ℤ)) := by
  unfold analyze validateTable
  by_cases hs : supportedLength t.length
  · have hsupp : ∃ k, 1 ≤ k ∧ t.length = 2 ^ k := (supportedLength_iff t.length).mp hs
    rw [if_pos hs]
    by_cases hr : allInRange t
    · have hrange := (allInRange_iff t).mp hr
      rw [if_pos hr]
      refine ⟨?_, ?_, ?_⟩
      · simp only [iff_iff_implies_and_implies]
        exact ⟨fun h => absurd h (by simp), fun h => absurd hsupp h⟩
      · simp only [iff_iff_implies_and_implies]
        refine ⟨fun h => absurd h (by simp), ?_⟩
        rintro ⟨_, v, hv, hbad⟩
        exact absurd (hrange v hv) hbad
      · exact ⟨fun _ => ⟨hsupp, hrange⟩, fun _ => ⟨_, rfl⟩⟩
    · have hrange : ¬ ∀ v ∈ t, 0 ≤ v ∧ v < (t.length : ℤ) :=
        fun h => hr ((allInRange_iff t).mpr h)
      rw [if_neg hr]
      push_neg at hrange
      obtain ⟨v, hv, hbad⟩ := hrange
      refine ⟨?_, ?_, ?_⟩
      · simp only [iff_iff_implies_and_implies]
        exact ⟨fun h => absurd h (by simp), fun h => absurd hsupp h⟩
      · refine ⟨fun _ => ⟨hsupp, v, hv, ?_⟩, fun _ => rfl⟩
        rintro ⟨hg1, hg2⟩
        have := hbad hg1
        omega
      · simp only [iff_iff_implies_and_implies]
        constructor
        · rintro ⟨q, hq⟩
          exact absurd hq (by simp)
        · rintro ⟨_, hall⟩
          have h1 := hbad (hall v hv).1
          have h2 := (hall v hv).2
          omega
  · have hsupp : ¬ ∃ k, 1 ≤ k ∧ t.length = 2 ^ k :=
      fun h => hs ((supportedLength_iff t.length).mpr h)
    rw [if_neg hs]
    refine ⟨⟨fun _ => hsupp, fun _ => rfl⟩, ?_, ?_⟩
    · simp only [iff_iff_implies_and_implies]
      exact ⟨fun h => absurd h (by simp), fun h => absurd h.1 hsupp⟩
    · simp only [iff_iff_implies_and_implies]
      constructor
      · rintro ⟨q, hq⟩
        exact absurd hq (by simp)
      · rintro ⟨hk, _⟩
        exact absurd hk hsupp

lemma sboxFun_identity {x : ℕ} (h : x < 256) : sboxFun identityTable x = x := by
  unfold sboxFun identityTable
  rw [List.getD_eq_getElem _ _ (by simpa using h)]
  exact List.getElem_range _ _

lemma walsh_natAbs_le (n : ℕ) (t : List ℕ) (a b : ℕ) :
    (walsh n t a b).natAbs ≤ 2 ^ n := by
  have habs : |walsh n t a b| ≤ ((2 ^ n : ℕ) : ℤ) := by
    unfold walsh
    calc |∑ x ∈ Finset.range (2 ^ n), walshTerm t a b x|
        ≤ ∑ x ∈ Finset.range (2 ^ n), |walshTerm t a b x| :=
          Finset.abs_sum_le_sum_abs _ _
      _ ≤ ∑ _x ∈ Finset.range (2 ^ n), 1 := by
          refine Finset.sum_le_sum fun x _ => ?_
          unfold walshTerm
          split <;> simp
      _ = ((2 ^ n : ℕ) : ℤ) := by simp
  have h1 := abs_le.mp habs
  omega

lemma walsh_identity_one_one : walsh 8 identityTable 1 1 = 256 := by
  unfold walsh
  have h : ∀ x ∈ Finset.range (2 ^ 8), walshTerm identityTable 1 1 x = 1 := by
    intro x hx
    unfold walshTerm
    rw [sboxFun_identity (by simpa using hx)]
    simp
  rw [Finset.sum_congr rfl h]
  simp

lemma maxAbsWalsh_identity : maxAbsWalsh 8 identityTable = 256 := by
  apply le_antisymm
  · refine Finset.sup_le fun p _ => ?_
    have h := walsh_natAbs_le 8 identityTable p.1 p.2
    norm_num at h
    exact h
  · have hmem : ((1, 1) : ℕ × ℕ) ∈ Finset.range (2 ^ 8) ×ˢ Finset.Ico 1 (2 ^ 8) := by
      rw [Finset.mem_product, Finset.mem_range, Finset.mem_Ico]
      norm_num
    have hle : (walsh 8 identityTable 1 1).natAbs ≤
        (Finset.range (2 ^ 8) ×ˢ Finset.Ico 1 (2 ^ 8)).sup
          (fun p : ℕ × ℕ => (walsh 8 identityTable p.1 p.2).natAbs) :=
      Finset.le_sup (f := fun p : ℕ × ℕ => (walsh 8 identityTable p.1 p.2).natAbs) hmem
    rw [walsh_identity_one_one] at hle
    exact hle

lemma ddtCount_le (n : ℕ) (t : List ℕ) (dx dy : ℕ) :
    ddtCount n t dx dy ≤ 2 ^ n := by
  unfold ddtCount
  exact le_trans (Finset.card_filter_le _ _) (by simp)

lemma ddtCount_identity_one_one : ddtCount 8 identityTable 1 1 = 256 := by
  unfold ddtCount
  have hall : ∀ x ∈ Finset.range (2 ^ 8),
      sboxFun identityTable x ^^^ sboxFun identityTable (x ^^^ 1) = 1 := by
    intro x hx
    have hx' : x < 256 := by simpa using hx
    have hxor : x ^^^ 1 < 256 := Nat.xor_lt_two_pow (n := 8) hx' (by norm_num)
    rw [sboxFun_identity hx', sboxFun_identity hxor,
      ← Nat.xor_assoc, Nat.xor_self, Nat.zero_xor]
  rw [Finset.filter_true_of_mem hall, Finset.card_range]
  norm_num

lemma maxDdt_identity : maxDdt 8 identityTable = 256 := by
  apply le_antisymm
  · refine Finset.sup_le fun p _ => ?_
    have h := ddtCount_le 8 identityTable p.1 p.2
    norm_num at h
    exact h
  · have hmem : ((1, 1) : ℕ × ℕ) ∈ Finset.Ico 1 (2 ^ 8) ×ˢ Finset.range (2 ^ 8) := by
      rw [Finset.mem_product, Finset.mem_range, Finset.mem_Ico]
      norm_num
    have hle : ddtCount 8 identityTable 1 1 ≤
        (Finset.Ico 1 (2 ^ 8) ×ˢ Finset.range (2 ^ 8)).sup
          (fun p : ℕ × ℕ => ddtCount 8 identityTable p.1 p.2) :=
      Finset.le_sup (f := fun p : ℕ × ℕ => ddtCount 8 identityTable p.1 p.2) hmem
    rw [ddtCount_identity_one_one] at hle
    exact hle

lemma flipCount_identity (i j : ℕ) (hi : i < 8) (hj : j < 8) :
    flipCount 8 identityTable i j = if i = j then 256 else 0 := by
  have hpow : 2 ^ i < 256 := by
    calc 2 ^ i < 2 ^ 8 := Nat.pow_lt_pow_right (by norm_num) hi
    _ = 256 := by norm_num
  by_cases h : i = j
  · subst h
    rw [if_pos rfl]
    unfold flipCount
    have hall : ∀ x ∈ Finset.range (2 ^ 8),
        getBit (sboxFun identityTable x) i
          ≠ getBit (sboxFun identityTable (x ^^^ 2 ^ i)) i := by
      intro x hx
      have hx' : x < 256 := by simpa using hx
      have hxor : x ^^^ 2 ^ i < 256 := Nat.xor_lt_two_pow (n := 8) hx' hpow
      rw [sboxFun_identity hx', sboxFun_identity hxor]
      unfold getBit
      rw [Nat.testBit_xor, Nat.testBit_two_pow_self]
      cases x.testBit i <;> simp
    rw [Finset.filter_true_of_mem hall, Finset.card_range]
    norm_num
  · rw [if_neg h]
    unfold flipCount
    have hnone : ∀ x ∈ Finset.range (2 ^ 8),
        ¬ getBit (sboxFun identityTable x) j
          ≠ getBit (sboxFun identityTable (x ^^^ 2 ^ i)) j := by
      intro x hx
      have hx' : x < 256 := by simpa using hx
      have hxor : x ^^^ 2 ^ i < 256 := Nat.xor_lt_two_pow (n := 8) hx' hpow
      rw [sboxFun_identity hx', sboxFun_identity hxor]
      unfold getBit
      rw [Nat.testBit_xor, Nat.testBit_two_pow_of_ne h]
      simp
    rw [Finset.filter_false_of_mem hnone, Finset.card_empty]

lemma sacValue_identity : sacValue 8 identityTable = 1 / 8 := by
  unfold sacValue
  have hrow : ∀ i ∈ Finset.range 8,
      ∑ j ∈ Finset.range 8, flipRate 8 identityTable i j = 1 := by
    intro i hi
    have hi' : i < 8 := by simpa using hi
    have hterm : ∀ j ∈ Finset.range 8,
        flipRate 8 identityTable i j = if i = j then 1 else 0 := by
      intro j hj
      have hj' : j < 8 := by simpa using hj
      unfold flipRate
      rw [flipCount_identity i j hi' hj']
      split <;> norm_num
    rw [Finset.sum_congr rfl hterm, Finset.sum_ite_eq]
    simp [hi']
  rw [Finset.sum_congr rfl hrow, Finset.sum_const, Finset.card_range]
  norm_num

/-- C8: on the 256-entry identity table the analyses give LAP = 1,
DAP = 1, SAC (the average avalanche flip rate) = 1/8, and Nonlinearity = 0. -/
theorem identity_table_metrics :
    lapValue 8 identityTable = 1
    ∧ dapValue 8 identityTable = 1
    ∧ sacValue 8 identityTable = 1 / 8
    ∧ nlValue 8 identityTable = 0 := by
  refine ⟨?_, ?_, sacValue_identity, ?_⟩
  · unfold lapValue
    rw [maxAbsWalsh_identity]
    norm_num
  · unfold dapValue
    rw [maxDdt_identity]
    norm_num
  · unfold nlValue
    rw [maxAbsWalsh_identity]
    norm_num

end Sbox
